import Mathlib

/-!
Shallow embedding of the query-composition layer of the PredictionMarkets
dashboard (Drizzle/PostgreSQL query functions), together with proofs of the
behavioural properties stated in the specification.

Modelling conventions:
* a database table is a `List` of row structures;
* nullable SQL columns are `Option` fields; SQL `=`/`>=` comparisons against
  `NULL` yield no match, which the embeddings encode by `Option` matching;
* `double precision` columns are embedded as `ℚ`;
* ISO-8601 text timestamps compared by the SQL engine are embedded by their
  epoch-millisecond denotation (`Int`), since lexicographic comparison of
  equal-format ISO strings coincides with chronological comparison;
* `ORDER BY` is a sort (`sortByLe`) with the corresponding total comparator,
  including PostgreSQL's default NULL placement (`NULLS FIRST` under `DESC`,
  `NULLS LAST` under `ASC`) unless the query overrides it;
* `LIMIT n` is `List.take n`, `OFFSET k` is `List.drop k`;
* `ILIKE '%s%'` is case-insensitive substring containment on the title.
-/

namespace PredictionMarkets

/-- Default pagination size (`PAGE_SIZE` in `lib/constants.ts`). -/
def PAGE_SIZE : Nat := 50

/-- Comparator on nullable rationals: `optQLe nullsFirst x y` says `x` may be
placed before `y` in ascending order, with `NULL`s placed first when
`nullsFirst` and last otherwise. -/
def optQLe (nullsFirst : Bool) : Option ℚ → Option ℚ → Bool
  | none, none => true
  | none, some _ => nullsFirst
  | some _, none => !nullsFirst
  | some a, some b => decide (a ≤ b)

/-- Insert `a` into `l` just before the first element `b` with `le a b`. -/
def orderedInsertLe {α : Type} (le : α → α → Bool) (a : α) : List α → List α
  | [] => [a]
  | b :: l => if le a b then a :: b :: l else b :: orderedInsertLe le a l

/-- Insertion sort by a boolean comparator; the denotation of SQL
`ORDER BY` (which promises no particular order among ties). -/
def sortByLe {α : Type} (le : α → α → Bool) : List α → List α
  | [] => []
  | a :: l => orderedInsertLe le a (sortByLe le l)

/-- Whether the character list `needle` occurs at the head of `hay`. -/
def listStartsWith : List Char → List Char → Bool
  | [], _ => true
  | _ :: _, [] => false
  | c :: cs, d :: ds => c == d && listStartsWith cs ds

/-- Whether the character list `needle` occurs contiguously anywhere in `hay`. -/
def listContainsSub : List Char → List Char → Bool
  | [], needle => needle.isEmpty
  | h :: t, needle => listStartsWith needle (h :: t) || listContainsSub t needle

/-- Lowercase every character of a string. -/
def strLower (s : String) : String := ⟨s.data.map Char.toLower⟩

/-- JavaScript `hay.includes(needle)` on strings. -/
def strIncludes (hay needle : String) : Bool :=
  listContainsSub hay.data needle.data

/-- Denotation of SQL `title ILIKE '%' || pat || '%'`: case-insensitive
substring containment. -/
def ilikeContains (title pat : String) : Bool :=
  listContainsSub (title.data.map Char.toLower) (pat.data.map Char.toLower)

/-- A row of the `markets` table (`db/schema.ts`), restricted to the columns
the verified queries read. -/
structure Market where
  id : Nat
  platform : String
  platformId : String
  title : String
  category : Option String
  status : Option String
  yesPrice : Option ℚ
  noPrice : Option ℚ
  volume : Option ℚ
  deriving DecidableEq, Repr

/-- Parameter object of `getMarkets` (`GetMarketsParams` in
`db/queries/markets.ts`); `none` is an absent (JS `undefined`) field. -/
structure GetMarketsParams where
  platform : Option String := none
  status : Option String := none
  category : Option String := none
  search : Option String := none
  sort : Option String := none
  page : Option Nat := none
  deriving DecidableEq, Repr

/-- The status condition `getMarkets` pushes:
`if (status && status !== "all") eq(markets.status, status)`, after the
destructuring default `status = "active"`. -/
def statusCondB (q : GetMarketsParams) (m : Market) : Bool :=
  if q.status.getD "active" ≠ "" ∧ q.status.getD "active" ≠ "all" then
    m.status == some (q.status.getD "active")
  else true

/-- The platform condition `getMarkets` pushes:
`if (platform && platform !== "all") eq(markets.platform, platform)`. -/
def platformCondB (q : GetMarketsParams) (m : Market) : Bool :=
  match q.platform with
  | some p => if p ≠ "" ∧ p ≠ "all" then m.platform == p else true
  | none => true

/-- The category condition `getMarkets` pushes:
`if (category && category !== "All" && category !== "all")
eq(markets.category, category)`. -/
def categoryCondB (q : GetMarketsParams) (m : Market) : Bool :=
  match q.category with
  | some c => if c ≠ "" ∧ c ≠ "All" ∧ c ≠ "all" then m.category == some c else true
  | none => true

/-- The search condition `getMarkets` pushes:
`if (search) ilike(markets.title, '%' + search + '%')`. -/
def searchCondB (q : GetMarketsParams) (m : Market) : Bool :=
  match q.search with
  | some s => if s ≠ "" then ilikeContains m.title s else true
  | none => true

/-- `and(...conditions)` of the pushed conditions (an empty condition list is
an absent WHERE clause, i.e. `true`). -/
def marketCond (q : GetMarketsParams) (m : Market) : Bool :=
  statusCondB q m && platformCondB q m && categoryCondB q m && searchCondB q m

/-- The comparator selected by the `switch (sort)` in `getMarkets`; the
`default` arm (together with `"volume_desc"`) is `desc(markets.volume)`.
Drizzle `desc` is PostgreSQL `DESC` (NULLS FIRST), `asc` is `ASC`
(NULLS LAST). -/
def marketOrderLe : String → Market → Market → Bool
  | "volume_asc" => fun a b => optQLe false a.volume b.volume
  | "title_asc" => fun a b => decide (a.title ≤ b.title)
  | "title_desc" => fun a b => decide (b.title ≤ a.title)
  | "yes_price_desc" => fun a b => optQLe false b.yesPrice a.yesPrice
  | "yes_price_asc" => fun a b => optQLe false a.yesPrice b.yesPrice
  | _ => fun a b => optQLe false b.volume a.volume

/-- The sort keys the `switch` in `getMarkets` recognizes. -/
def recognizedSortKeys : List String :=
  ["volume_desc", "volume_asc", "yes_price_desc", "yes_price_asc",
   "title_asc", "title_desc"]

/-- Result envelope of `getMarkets`. -/
structure MarketsPage where
  data : List Market
  total : Nat
  page : Nat
  pageSize : Nat
  totalPages : Nat
  deriving DecidableEq, Repr

/-- Embedding of `getMarkets` (`db/queries/markets.ts`): dynamic conjunctive
filter, one sort order, `LIMIT PAGE_SIZE OFFSET (page-1)*PAGE_SIZE`, and a
count query under the same filter. -/
def getMarkets (q : GetMarketsParams) (rows : List Market) : MarketsPage :=
  let filtered := rows.filter (marketCond q)
  let sorted := sortByLe (marketOrderLe (q.sort.getD "volume_desc")) filtered
  let page := q.page.getD 1
  { data := (sorted.drop ((page - 1) * PAGE_SIZE)).take PAGE_SIZE
    total := filtered.length
    page := page
    pageSize := PAGE_SIZE
    totalPages := (filtered.length + PAGE_SIZE - 1) / PAGE_SIZE }

/-- Spec-side status filter: an absent status defaults to `"active"`; an
empty or `"all"` value imposes no constraint; otherwise equality on the
status column. -/
def specStatusOk (q : GetMarketsParams) (m : Market) : Bool :=
  if q.status.getD "active" = "" ∨ q.status.getD "active" = "all" then true
  else m.status == some (q.status.getD "active")

/-- Spec-side platform filter: absent, empty or `"all"` imposes no
constraint; otherwise equality on the platform column. -/
def specPlatformOk (q : GetMarketsParams) (m : Market) : Bool :=
  match q.platform with
  | some p => if p = "" ∨ p = "all" then true else m.platform == p
  | none => true

/-- Spec-side category filter: absent, empty or an "all" value (either
spelling used by the UI vocabulary) imposes no constraint; otherwise equality
on the category column. -/
def specCategoryOk (q : GetMarketsParams) (m : Market) : Bool :=
  match q.category with
  | some c => if c = "" ∨ c = "all" ∨ c = "All" then true else m.category == some c
  | none => true

/-- Spec-side search filter: case-insensitive substring match on the title;
absent imposes no constraint (an empty search text matches every title). -/
def specSearchOk (q : GetMarketsParams) (m : Market) : Bool :=
  match q.search with
  | some s => ilikeContains m.title s
  | none => true

/-- A row of the `market_pairs` table, restricted to the columns the verified
queries read. -/
structure MarketPair where
  id : Nat
  kalshiMarketId : Option Nat
  polymarketMarketId : Option Nat
  matchConfidence : Option ℚ
  priceGap : Option ℚ
  deriving DecidableEq, Repr

/-- Embedding of `getAllPairs` (`db/queries/pairs.ts`): an optional
`WHERE ABS(mp.price_gap) >= minGap` clause, emitted only when `minGap` is
truthy (so an omitted or zero `minGap` yields no clause), then
`ORDER BY ABS(mp.price_gap) DESC`. A `NULL` price gap fails the SQL
comparison and is excluded when the clause is present. -/
def getAllPairs (pairs : List MarketPair) (minGap : Option ℚ) : List MarketPair :=
  let filtered :=
    match minGap with
    | some g =>
      if g ≠ 0 then
        pairs.filter fun p : MarketPair =>
          match p.priceGap with
          | some x => decide (g ≤ |x|)
          | none => false
      else pairs
    | none => pairs
  sortByLe (fun a b =>
    optQLe false (b.priceGap.map fun x => |x|) (a.priceGap.map fun x => |x|)) filtered

/-- The WHERE condition of `getNear5050Markets`:
`status = 'active' AND yes_price >= 0.45 AND yes_price <= 0.55`
(a `NULL` yes-price fails both comparisons). -/
def near5050Cond (m : Market) : Bool :=
  m.status == some "active" &&
  (match m.yesPrice with
   | some p => decide (mkRat 45 100 ≤ p)
   | none => false) &&
  (match m.yesPrice with
   | some p => decide (p ≤ mkRat 55 100)
   | none => false)

/-- Embedding of `getNear5050Markets` (`db/queries/smart-filters.ts`):
filter, `ORDER BY volume DESC`, `LIMIT limit`. -/
def getNear5050Markets (rows : List Market) (limit : Nat) : List Market :=
  ((sortByLe (fun a b => optQLe false b.volume a.volume) (rows.filter near5050Cond)).take limit)

/-- Whether a market pair passes the `high_arb` gap test:
`ABS(COALESCE(mp.price_gap, 0)) >= 0.03`. -/
def highArbPairCond (p : MarketPair) : Bool :=
  decide (mkRat 3 100 ≤ |p.priceGap.getD 0|)

/-- The join condition of `getHighArbMarkets`:
`m.id = mp.polymarket_market_id OR m.id = mp.kalshi_market_id`. -/
def pairRefersTo (p : MarketPair) (m : Market) : Bool :=
  p.polymarketMarketId == some m.id || p.kalshiMarketId == some m.id

/-- Embedding of `getHighArbMarkets` (`db/queries/smart-filters.ts`):
`SELECT DISTINCT m.*` over the join of `market_pairs` and `markets`, with
`WHERE ABS(COALESCE(mp.price_gap, 0)) >= 0.03 AND m.status = 'active'`,
`ORDER BY m.volume DESC NULLS LAST`, `LIMIT limit`. The `DISTINCT` join is
embedded as a filter keeping each market row once, namely when some
qualifying pair refers to it. -/
def getHighArbMarkets (pairs : List MarketPair) (rows : List Market) (limit : Nat) : List Market :=
  ((sortByLe (fun a b => optQLe true b.volume a.volume)
      (rows.filter fun m =>
        (pairs.any fun p => highArbPairCond p && pairRefersTo p m) &&
          m.status == some "active")).take limit)

/-- Spec-side `high_arb` membership condition exactly as the claim states it:
the market appears in some MarketPair whose absolute price gap is at least
0.03. -/
def specHighArbEligible (pairs : List MarketPair) (m : Market) : Bool :=
  pairs.any fun p =>
    (match p.priceGap with
     | some g => decide (mkRat 3 100 ≤ |g|)
     | none => false) && pairRefersTo p m

/-- A row of the `price_snapshots` table; the ISO-8601 text timestamp is
embedded by its epoch-millisecond denotation. -/
structure PriceSnapshot where
  id : Nat
  marketId : Nat
  yesPrice : Option ℚ
  noPrice : Option ℚ
  volume : Option ℚ
  timestamp : Int
  deriving DecidableEq, Repr

/-- The own entries of the `RANGE_HOURS` object literal in
`db/queries/whales.ts`; any other key has no own entry. -/
def RANGE_HOURS : String → Option Nat
  | "24h" => some 24
  | "7d" => some 168
  | "30d" => some 720
  | _ => none

/-- Property names every plain JavaScript object literal inherits from
`Object.prototype`. An indexed lookup such as `RANGE_HOURS[range]` with one
of these keys returns the inherited member — a function, or
`Object.prototype` itself for `__proto__` — which is truthy and
non-numeric, not `undefined`. -/
def objectPrototypeKeys : List String :=
  ["constructor", "hasOwnProperty", "isPrototypeOf", "propertyIsEnumerable",
   "toLocaleString", "toString", "valueOf", "__proto__",
   "__defineGetter__", "__defineSetter__", "__lookupGetter__",
   "__lookupSetter__"]

/-- The rows returned by the price-history SELECT under an optional lower
timestamp bound: `market_id = marketId` (AND `timestamp >= cutoff` when a
cutoff is present), `ORDER BY timestamp DESC`, `LIMIT limit`. -/
def priceHistoryQuery (rows : List PriceSnapshot) (marketId : Nat)
    (cutoff : Option Int) (limit : Nat) : List PriceSnapshot :=
  (sortByLe (fun a b => decide (b.timestamp ≤ a.timestamp))
    (rows.filter fun s =>
      s.marketId == marketId &&
      (match cutoff with
       | some c => decide (c ≤ s.timestamp)
       | none => true))).take limit

/-- Embedding of `getPriceHistoryWithRange` (`db/queries/whales.ts`). For a
truthy range other than `"all"`, the indexed lookup `RANGE_HOURS[range]`
yields one of three outcomes: an own numeric entry (truthy, so the cutoff
`now - hours * 3600000` is pushed), a truthy member inherited from
`Object.prototype` (then `hours * 60 * 60 * 1000` is `NaN` and
`new Date(NaN).toISOString()` throws `RangeError: Invalid time value`), or
`undefined` (falsy, so no bound is pushed). -/
def getPriceHistoryWithRange (rows : List PriceSnapshot) (now : Int) (marketId : Nat)
    (range : Option String) (limit : Nat) : Except String (List PriceSnapshot) :=
  match range with
  | some r =>
    if r ≠ "" ∧ r ≠ "all" then
      match RANGE_HOURS r with
      | some hours =>
        Except.ok (priceHistoryQuery rows marketId
          (some (now - hours * 3600000)) limit)
      | none =>
        if r ∈ objectPrototypeKeys then
          Except.error "RangeError: Invalid time value"
        else Except.ok (priceHistoryQuery rows marketId none limit)
    else Except.ok (priceHistoryQuery rows marketId none limit)
  | none => Except.ok (priceHistoryQuery rows marketId none limit)

/-- A row of the `alerts` table, restricted to the columns the verified
operations touch. -/
structure Alert where
  id : Nat
  alertType : String
  title : String
  acknowledged : Int
  deriving DecidableEq, Repr

/-- Embedding of `acknowledgeAlert` (`db/queries/alerts.ts`):
`UPDATE alerts SET acknowledged = 1 WHERE id = alertId`. -/
def acknowledgeAlert (rows : List Alert) (alertId : Nat) : List Alert :=
  rows.map fun a => if a.id == alertId then { a with acknowledged := 1 } else a

/-- A row of the `trader_watchlist` table (trader id unique). -/
structure WatchlistEntry where
  traderId : Nat
  createdAt : String
  deriving DecidableEq, Repr

/-- The PostgreSQL error message raised on a unique-constraint violation of
the watchlist's trader-id key. -/
def watchlistUniqueMsg : String :=
  "duplicate key value violates unique constraint \"trader_watchlist_trader_id_key\""

/-- The database insert underlying `addToWatchlist`: appends the row, or
raises the unique-violation error when the trader is already present. -/
def dbInsertWatchlist (st : List WatchlistEntry) (e : WatchlistEntry) :
    Except String (List WatchlistEntry) :=
  if st.any fun x => x.traderId == e.traderId then Except.error watchlistUniqueMsg
  else Except.ok (st ++ [e])

/-- Embedding of `addToWatchlist` (`db/queries/traders.ts`): try the insert;
on an error whose lowercased message contains `"unique"` or `"duplicate"`,
return success with `false` and the state unchanged; re-raise any other
error. -/
def addToWatchlist (st : List WatchlistEntry) (traderId : Nat) (nowIso : String) :
    Except String (List WatchlistEntry × Bool) :=
  match dbInsertWatchlist st { traderId := traderId, createdAt := nowIso } with
  | Except.ok st2 => Except.ok (st2, true)
  | Except.error e =>
    if strIncludes (strLower e) "unique" || strIncludes (strLower e) "duplicate" then
      Except.ok (st, false)
    else Except.error e

/-- Embedding of `removeFromWatchlist` (`db/queries/traders.ts`):
`DELETE FROM trader_watchlist WHERE trader_id = traderId`. -/
def removeFromWatchlist (st : List WatchlistEntry) (traderId : Nat) : List WatchlistEntry :=
  st.filter fun x => !(x.traderId == traderId)

/-- A row of the `trader_positions` table, restricted to the columns the
verified query reads; `snapshotTime` is the ISO-8601 text column. -/
structure TraderPosition where
  id : Nat
  traderId : Option Nat
  snapshotTime : String
  currentValue : Option ℚ
  deriving DecidableEq, Repr

/-- Lexicographic comparison of character lists; on equal-format ISO-8601
strings (ASCII) this is the SQL text order, which coincides with
chronological order. -/
def strLeB : List Char → List Char → Bool
  | [], _ => true
  | _ :: _, [] => false
  | a :: as, b :: bs => if a < b then true else if b < a then false else strLeB as bs

/-- SQL text `<=` on the embedded timestamp strings. -/
def timeLe (a b : String) : Bool := strLeB a.data b.data

/-- SQL `MAX` over a list of text values (`NULL` on an empty list). -/
def maxTime : List String → Option String
  | [] => none
  | t :: ts =>
    match maxTime ts with
    | none => some t
    | some m => some (if timeLe t m then m else t)

/-- Embedding of `getLatestTraderPositions` (`db/queries/traders.ts`):
resolve `MAX(snapshot_time)` among the trader's rows; a missing (or falsy
empty-string) result short-circuits to `[]`; otherwise return the trader's
rows at exactly that snapshot time, `ORDER BY current_value DESC`. -/
def getLatestTraderPositions (ps : List TraderPosition) (traderId : Nat) : List TraderPosition :=
  match maxTime ((ps.filter fun p => p.traderId == some traderId).map
      fun p => p.snapshotTime) with
  | none => []
  | some t =>
    if t = "" then []
    else
      sortByLe (fun a b => optQLe false b.currentValue a.currentValue)
        (ps.filter fun p => p.traderId == some traderId && p.snapshotTime == t)

/-- Fixture: an active Politics market. -/
def mPol : Market :=
  { id := 1, platform := "polymarket", platformId := "pm-1",
    title := "Will X win the election", category := some "Politics",
    status := some "active", yesPrice := some (mkRat 1 2), noPrice := some (mkRat 1 2),
    volume := some 1000 }

/-- Fixture: a resolved market referenced by a high-gap pair. -/
def mRes : Market :=
  { id := 2, platform := "polymarket", platformId := "pm-2",
    title := "Resolved example", category := some "Politics",
    status := some "resolved", yesPrice := some (mkRat 9 10), noPrice := some (mkRat 1 10),
    volume := some 500 }

/-- Fixture: a market pair with price gap 0.05 referring to market 2. -/
def pairRes : MarketPair :=
  { id := 1, kalshiMarketId := some 9, polymarketMarketId := some 2,
    matchConfidence := some (mkRat 8 10), priceGap := some (mkRat 5 100) }

/-- Fixture: a watchlist entry for trader 7. -/
def wlEntry : WatchlistEntry :=
  { traderId := 7, createdAt := "2025-01-01T00:00:00.000Z" }

/-- Fixture: an unacknowledged alert with id 1. -/
def alUnacked : Alert :=
  { id := 1, alertType := "price_move", title := "Example alert", acknowledged := 0 }

/-- Fixture: a market pair with price gap 0.04 referring to market 1. -/
def pairPol : MarketPair :=
  { id := 2, kalshiMarketId := some 9, polymarketMarketId := some 1,
    matchConfidence := some (mkRat 9 10), priceGap := some (mkRat 4 100) }

/-- Fixture: a price snapshot of market 5. -/
def snapNew : PriceSnapshot :=
  { id := 1, marketId := 5, yesPrice := some (mkRat 6 10),
    noPrice := some (mkRat 4 10), volume := some 100,
    timestamp := 1700000000000 }

/-- Fixture: a position snapshot of trader 4. -/
def posA : TraderPosition :=
  { id := 1, traderId := some 4, snapshotTime := "2025-03-01T00:00:00.000Z",
    currentValue := some 10 }

/-- Fixture: a later position snapshot of trader 4. -/
def posB : TraderPosition :=
  { id := 2, traderId := some 4, snapshotTime := "2025-03-02T00:00:00.000Z",
    currentValue := some 20 }

theorem mem_orderedInsertLe {α : Type} (le : α → α → Bool) (a x : α) (l : List α) :
    x ∈ orderedInsertLe le a l ↔ x = a ∨ x ∈ l := by
  induction l with
  | nil => simp [orderedInsertLe]
  | cons b t ih =>
    by_cases h : le a b = true
    · simp [orderedInsertLe, h]
      try tauto
    · simp [orderedInsertLe, h, ih]
      try tauto

theorem length_orderedInsertLe {α : Type} (le : α → α → Bool) (a : α) (l : List α) :
    (orderedInsertLe le a l).length = l.length + 1 := by
  induction l with
  | nil => rfl
  | cons b t ih =>
    by_cases h : le a b = true <;> simp [orderedInsertLe, h, ih]

theorem pairwise_orderedInsertLe {α : Type} (le : α → α → Bool)
    (htrans : ∀ a b c, le a b = true → le b c = true → le a c = true)
    (htotal : ∀ a b, (le a b || le b a) = true)
    (a : α) (l : List α) (h : l.Pairwise fun x y => le x y = true) :
    (orderedInsertLe le a l).Pairwise fun x y => le x y = true := by
  induction l with
  | nil => simp [orderedInsertLe]
  | cons b t ih =>
    rcases List.pairwise_cons.mp h with ⟨hb, ht⟩
    by_cases hab : le a b = true
    · simp only [orderedInsertLe, if_pos hab]
      refine List.pairwise_cons.mpr ⟨?_, h⟩
      intro x hx
      rcases List.mem_cons.mp hx with rfl | hx
      · exact hab
      · exact htrans a b x hab (hb x hx)
    · have hba : le b a = true := by
        have := htotal a b
        simpa [hab] using this
      simp only [orderedInsertLe, if_neg hab]
      refine List.pairwise_cons.mpr ⟨?_, ih ht⟩
      intro x hx
      rcases (mem_orderedInsertLe le a x t).mp hx with rfl | hx
      · exact hba
      · exact hb x hx

theorem mem_sortByLe {α : Type} (le : α → α → Bool) (x : α) (l : List α) :
    x ∈ sortByLe le l ↔ x ∈ l := by
  induction l with
  | nil => simp [sortByLe]
  | cons a t ih => simp [sortByLe, mem_orderedInsertLe, ih]

theorem length_sortByLe {α : Type} (le : α → α → Bool) (l : List α) :
    (sortByLe le l).length = l.length := by
  induction l with
  | nil => rfl
  | cons a t ih => simp [sortByLe, length_orderedInsertLe, ih]

theorem pairwise_sortByLe {α : Type} (le : α → α → Bool)
    (htrans : ∀ a b c, le a b = true → le b c = true → le a c = true)
    (htotal : ∀ a b, (le a b || le b a) = true)
    (l : List α) :
    (sortByLe le l).Pairwise fun x y => le x y = true := by
  induction l with
  | nil => simp [sortByLe]
  | cons a t ih => exact pairwise_orderedInsertLe le htrans htotal a _ ih

theorem optQLe_trans (f : Bool) (a b c : Option ℚ)
    (h1 : optQLe f a b = true) (h2 : optQLe f b c = true) :
    optQLe f a c = true := by
  cases a <;> cases b <;> cases c <;> cases f <;> simp_all [optQLe]
  all_goals exact le_trans h1 h2

theorem optQLe_total (f : Bool) (a b : Option ℚ) :
    (optQLe f a b || optQLe f b a) = true := by
  cases a <;> cases b <;> cases f <;> simp [optQLe]
  all_goals exact le_total _ _

theorem statusCondB_eq_spec (q : GetMarketsParams) (m : Market) :
    statusCondB q m = specStatusOk q m := by
  unfold statusCondB specStatusOk
  split_ifs <;> first | rfl | tauto

theorem platformCondB_eq_spec (q : GetMarketsParams) (m : Market) :
    platformCondB q m = specPlatformOk q m := by
  unfold platformCondB specPlatformOk
  cases q.platform with
  | none => rfl
  | some p => dsimp only; split_ifs <;> first | rfl | tauto

theorem categoryCondB_eq_spec (q : GetMarketsParams) (m : Market) :
    categoryCondB q m = specCategoryOk q m := by
  unfold categoryCondB specCategoryOk
  cases q.category with
  | none => rfl
  | some c => dsimp only; split_ifs <;> first | rfl | tauto

theorem searchCondB_eq_spec (q : GetMarketsParams) (m : Market) :
    searchCondB q m = specSearchOk q m := by
  unfold searchCondB specSearchOk
  cases q.search with
  | none => rfl
  | some s =>
    by_cases h : s = ""
    · subst h
      simp [ilikeContains, listContainsSub]
      cases m.title.data <;> simp [listContainsSub, listStartsWith, List.isEmpty]
    · simp [h]

theorem marketOrderLe_trans (k : String) (a b c : Market)
    (h1 : marketOrderLe k a b = true) (h2 : marketOrderLe k b c = true) :
    marketOrderLe k a c = true := by
  unfold marketOrderLe at h1 h2 ⊢
  split at h1 <;> simp_all <;>
    first
      | exact optQLe_trans _ _ _ _ h1 h2
      | exact optQLe_trans _ _ _ _ h2 h1
      | exact le_trans h1 h2
      | exact le_trans h2 h1

theorem marketOrderLe_total (k : String) (a b : Market) :
    (marketOrderLe k a b || marketOrderLe k b a) = true := by
  unfold marketOrderLe
  split <;>
    first
      | exact optQLe_total _ _ _
      | (simp only [Bool.or_eq_true, decide_eq_true_eq]; exact le_total _ _)

theorem marketOrderLe_fallback (k : String)
    (hk : k ∉ recognizedSortKeys) :
    marketOrderLe k = marketOrderLe "volume_desc" := by
  unfold marketOrderLe
  split
  all_goals simp_all [recognizedSortKeys]

/-- Any take-of-drop window of a pairwise-sorted list is pairwise sorted. -/
theorem pairwise_window {α : Type} {R : α → α → Prop} {l : List α}
    (h : l.Pairwise R) (i n : Nat) : ((l.drop i).take n).Pairwise R :=
  h.sublist ((List.take_sublist _ _).trans (List.drop_sublist _ _))

theorem getMarkets_sort_fallback (q : GetMarketsParams) (rows : List Market)
    (k : String) (hq : q.sort = some k) (hk : k ∉ recognizedSortKeys) :
    getMarkets q rows = getMarkets { q with sort := some "volume_desc" } rows := by
  rcases q with ⟨pl, st, ca, se, so, pg⟩
  change so = some k at hq
  subst hq
  unfold getMarkets
  simp only [Option.getD_some]
  rw [marketOrderLe_fallback k hk]
  rfl

theorem watchlistUniqueMsg_flagged :
    (strIncludes (strLower watchlistUniqueMsg) "unique"
      || strIncludes (strLower watchlistUniqueMsg) "duplicate") = true := by decide

theorem highArbPairCond_eq_spec (p : MarketPair) :
    highArbPairCond p
      = (match p.priceGap with
         | some g => decide (mkRat 3 100 ≤ |g|)
         | none => false) := by
  cases h : p.priceGap with
  | none => simp only [highArbPairCond, h]; decide
  | some g => simp [highArbPairCond, h]

theorem specHighArbEligible_eq (pairs : List MarketPair) (m : Market) :
    specHighArbEligible pairs m
      = pairs.any fun p => highArbPairCond p && pairRefersTo p m := by
  unfold specHighArbEligible
  congr 1
  funext p
  rw [highArbPairCond_eq_spec]

/-- C8: for every limit, the `near_5050` smart filter returns at most `limit`
markets, all of them active with yes-price in the closed interval
[0.45, 0.55] (endpoints included), ordered by volume descending; and every
qualifying market is returned when the qualifying rows fit within the cap. -/
theorem c8_near5050 (rows : List Market) (limit : Nat) :
    (getNear5050Markets rows limit).length ≤ limit
    ∧ (∀ m ∈ getNear5050Markets rows limit,
        m.status = some "active" ∧
        ∃ p, m.yesPrice = some p ∧ mkRat 45 100 ≤ p ∧ p ≤ mkRat 55 100)
    ∧ (getNear5050Markets rows limit).Pairwise
        (fun a b => optQLe false b.volume a.volume = true)
    ∧ ((rows.filter near5050Cond).length ≤ limit →
        ∀ m ∈ rows, near5050Cond m = true → m ∈ getNear5050Markets rows limit) := by
  refine ⟨List.length_take_le _ _, ?_, ?_, ?_⟩
  · intro m hm
    have hf := List.mem_filter.mp
      ((mem_sortByLe _ m _).mp (List.mem_of_mem_take hm))
    have hc := hf.2
    simp only [near5050Cond, Bool.and_eq_true, beq_iff_eq] at hc
    obtain ⟨⟨hst, hge⟩, hle⟩ := hc
    refine ⟨hst, ?_⟩
    cases hy : m.yesPrice with
    | none => rw [hy] at hge; simp at hge
    | some p =>
      rw [hy] at hge hle
      simp only [decide_eq_true_eq] at hge hle
      exact ⟨p, rfl, hge, hle⟩
  · exact (pairwise_sortByLe _
      (fun a b c h1 h2 => optQLe_trans false c.volume b.volume a.volume h2 h1)
      (fun a b => optQLe_total false b.volume a.volume) _).sublist
      (List.take_sublist _ _)
  · intro hlen m hm hc
    unfold getNear5050Markets
    rw [List.take_of_length_le (by rw [length_sortByLe]; exact hlen)]
    exact (mem_sortByLe _ m _).mpr (List.mem_filter.mpr ⟨hm, hc⟩)

/-- C10: `getAllPairs` treats `minGap = 0` exactly like an omitted `minGap`
(the falsy check skips the WHERE clause, so no gap filter applies and
null-gap pairs are included), while any `minGap > 0` filters by
`abs(price_gap) >= minGap` and in particular excludes every pair whose price
gap is null. -/
theorem c10_allPairs_minGap (pairs : List MarketPair) (g : ℚ) (p : MarketPair) :
    getAllPairs pairs (some 0) = getAllPairs pairs none
    ∧ (p ∈ pairs → p ∈ getAllPairs pairs (some 0))
    ∧ (0 < g → p ∈ getAllPairs pairs (some g) →
        ∃ x, p.priceGap = some x ∧ g ≤ |x|) := by
  refine ⟨by simp [getAllPairs], ?_, ?_⟩
  · intro hp
    simp only [getAllPairs]
    rw [if_neg (by simp)]
    exact (mem_sortByLe _ p _).mpr hp
  · intro hg hp
    simp only [getAllPairs] at hp
    rw [if_pos (ne_of_gt hg)] at hp
    have hf := (List.mem_filter.mp ((mem_sortByLe _ p _).mp hp)).2
    cases hx : p.priceGap with
    | none => rw [hx] at hf; simp at hf
    | some x =>
      rw [hx] at hf
      simp only [decide_eq_true_eq] at hf
      exact ⟨x, rfl, hf⟩

/-- C7: alert acknowledgement is idempotent and one-way: the update sets
`acknowledged = 1` on the alert with the targeted id; acknowledging twice
equals acknowledging once (no error on the second call); acknowledging an id
with no matching alert leaves the table unchanged; and every row of the
result is either acknowledged or an untouched original row, so no exposed
operation clears the flag. -/
theorem c7_acknowledge_idempotent (rows : List Alert) (alertId : Nat) :
    (∀ a ∈ acknowledgeAlert rows alertId, a.id = alertId → a.acknowledged = 1)
    ∧ acknowledgeAlert (acknowledgeAlert rows alertId) alertId
        = acknowledgeAlert rows alertId
    ∧ ((∀ a ∈ rows, a.id ≠ alertId) → acknowledgeAlert rows alertId = rows)
    ∧ (∀ a ∈ acknowledgeAlert rows alertId, a.acknowledged = 1 ∨ a ∈ rows) := by
  refine ⟨?_, ?_, ?_, ?_⟩
  · intro a ha hid
    rcases List.mem_map.mp ha with ⟨b, hb, rfl⟩
    by_cases h : (b.id == alertId) = true
    · simp [h]
    · simp only [h, if_false, Bool.false_eq_true] at hid ⊢
      exact absurd hid (by simpa using h)
  · simp only [acknowledgeAlert, List.map_map]
    apply List.map_congr_left
    intro a _
    by_cases h : (a.id == alertId) = true
    · simp [Function.comp, h]
    · simp [Function.comp, h]
  · intro h
    have he : ∀ a ∈ rows,
        (if a.id == alertId then { a with acknowledged := 1 } else a) = a := by
      intro a ha
      rw [if_neg]
      simpa using h a ha
    exact (List.map_congr_left he).trans (List.map_id rows)
  · intro a ha
    rcases List.mem_map.mp ha with ⟨b, hb, rfl⟩
    by_cases h : (b.id == alertId) = true
    · left; simp [h]
    · right; simp only [h, if_false, Bool.false_eq_true]; exact hb

/-- C6: the watchlist insert converts a uniqueness violation (trader already
watched) into a successful no-op — the error is caught, never surfaced, and
the state is returned unchanged — and deleting a trader with no watchlist
entry is likewise a no-op that raises no error. -/
theorem c6_watchlist_noop (st : List WatchlistEntry) (tid : Nat) (nowIso : String) :
    ((st.any fun x => x.traderId == tid) = true →
      addToWatchlist st tid nowIso = Except.ok (st, false))
    ∧ ((∀ e ∈ st, e.traderId ≠ tid) → removeFromWatchlist st tid = st) := by
  constructor
  · intro h
    simp only [addToWatchlist, dbInsertWatchlist]
    rw [if_pos h]
    simp [watchlistUniqueMsg_flagged]
  · intro h
    apply List.filter_eq_self.mpr
    intro e he
    simpa using h e he

theorem strLeB_refl (l : List Char) : strLeB l l = true := by
  induction l with
  | nil => rfl
  | cons a t ih => simp [strLeB, lt_irrefl, ih]

theorem strLeB_total (l1 l2 : List Char) : (strLeB l1 l2 || strLeB l2 l1) = true := by
  induction l1 generalizing l2 with
  | nil => simp [strLeB]
  | cons a as ih =>
    cases l2 with
    | nil => simp [strLeB]
    | cons b bs =>
      by_cases hab : a < b
      · simp [strLeB, hab]
      · by_cases hba : b < a
        · simp [strLeB, hab, hba]
        · simp [strLeB, hab, hba, ih bs]

theorem strLeB_trans (l1 l2 l3 : List Char) (h1 : strLeB l1 l2 = true)
    (h2 : strLeB l2 l3 = true) : strLeB l1 l3 = true := by
  induction l1 generalizing l2 l3 with
  | nil => simp [strLeB]
  | cons a as ih =>
    cases l2 with
    | nil => simp [strLeB] at h1
    | cons b bs =>
      cases l3 with
      | nil => simp [strLeB] at h2
      | cons c cs =>
        simp only [strLeB] at h1 h2 ⊢
        by_cases hab : a < b
        · by_cases hbc : b < c
          · simp [lt_trans hab hbc]
          · by_cases hcb : c < b
            · simp [hbc, hcb] at h2
            · have hbceq : b = c := le_antisymm (not_lt.mp hcb) (not_lt.mp hbc)
              subst hbceq
              simp [hab]
        · by_cases hba : b < a
          · simp [hab, hba] at h1
          · have habeq : a = b := le_antisymm (not_lt.mp hba) (not_lt.mp hab)
            subst habeq
            simp only [lt_irrefl, if_false] at h1
            by_cases hac : a < c
            · simp [hac]
            · by_cases hca : c < a
              · simp [hac, hca] at h2
              · simp only [hac, hca, if_false] at h2 ⊢
                exact ih bs cs h1 h2

theorem timeLe_total (a b : String) : (timeLe a b || timeLe b a) = true :=
  strLeB_total a.data b.data

theorem maxTime_mem (l : List String) (t : String) (h : maxTime l = some t) :
    t ∈ l := by
  induction l generalizing t with
  | nil => simp [maxTime] at h
  | cons a ts ih =>
    simp only [maxTime] at h
    cases hm : maxTime ts with
    | none =>
      rw [hm] at h
      simp only [Option.some.injEq] at h
      exact h ▸ List.mem_cons_self a ts
    | some m =>
      rw [hm] at h
      simp only [Option.some.injEq] at h
      by_cases hc : timeLe a m = true
      · rw [if_pos hc] at h
        exact h ▸ List.mem_cons_of_mem a (ih m hm)
      · rw [if_neg hc] at h
        exact h ▸ List.mem_cons_self a ts

theorem maxTime_isNone (l : List String) (h : maxTime l = none) : l = [] := by
  cases l with
  | nil => rfl
  | cons a ts =>
    simp only [maxTime] at h
    cases hm : maxTime ts <;> rw [hm] at h <;> cases h

theorem maxTime_ge (l : List String) (t : String) (h : maxTime l = some t) :
    ∀ x ∈ l, timeLe x t = true := by
  induction l generalizing t with
  | nil => simp
  | cons a ts ih =>
    intro x hx
    simp only [maxTime] at h
    cases hm : maxTime ts with
    | none =>
      rw [hm] at h
      simp only [Option.some.injEq] at h
      subst h
      have hts := maxTime_isNone ts hm
      subst hts
      have hxa : x = a := by simpa using hx
      subst hxa
      exact strLeB_refl _
    | some m =>
      rw [hm] at h
      simp only [Option.some.injEq] at h
      subst h
      rcases List.mem_cons.mp hx with rfl | hx2
      · by_cases hc : timeLe x m = true
        · rw [if_pos hc]; exact hc
        · rw [if_neg hc]; exact strLeB_refl _
      · have hxm := ih m hm x hx2
        by_cases hc : timeLe a m = true
        · rw [if_pos hc]; exact hxm
        · rw [if_neg hc]
          have hma : timeLe m a = true := by
            have htot := timeLe_total a m
            rw [Bool.or_eq_true] at htot
            exact htot.resolve_left hc
          exact strLeB_trans x.data m.data a.data hxm hma

theorem RANGE_HOURS_keys (rg : String) (hours : Nat)
    (h : RANGE_HOURS rg = some hours) : rg ≠ "" ∧ rg ≠ "all" := by
  constructor
  · rintro rfl
    rw [show RANGE_HOURS "" = none from rfl] at h
    cases h
  · rintro rfl
    rw [show RANGE_HOURS "all" = none from rfl] at h
    cases h

theorem objectPrototypeKeys_unlisted :
    ∀ rg ∈ objectPrototypeKeys, (rg ≠ "" ∧ rg ≠ "all") ∧ RANGE_HOURS rg = none := by
  decide

theorem priceHistoryQuery_spec (rows : List PriceSnapshot) (marketId : Nat)
    (cutoff : Option Int) (limit : Nat) :
    (priceHistoryQuery rows marketId cutoff limit).length ≤ limit
    ∧ (priceHistoryQuery rows marketId cutoff limit).Pairwise
        (fun a b => b.timestamp ≤ a.timestamp)
    ∧ (∀ s ∈ priceHistoryQuery rows marketId cutoff limit,
        s.marketId = marketId ∧ ∀ c, cutoff = some c → c ≤ s.timestamp) := by
  refine ⟨List.length_take_le _ _, ?_, ?_⟩
  · have hs := pairwise_sortByLe
      (fun a b : PriceSnapshot => decide (b.timestamp ≤ a.timestamp))
      (fun a b c h1 h2 => by
        simp only [decide_eq_true_eq] at h1 h2 ⊢
        exact le_trans h2 h1)
      (fun a b => by
        simp only [Bool.or_eq_true, decide_eq_true_eq]
        exact le_total b.timestamp a.timestamp)
      (rows.filter fun s =>
        s.marketId == marketId &&
        (match cutoff with
         | some c => decide (c ≤ s.timestamp)
         | none => true))
    exact (hs.sublist (List.take_sublist _ _)).imp fun h => by simpa using h
  · intro s hs
    have hc := (List.mem_filter.mp
      ((mem_sortByLe _ s _).mp (List.mem_of_mem_take hs))).2
    simp only [Bool.and_eq_true, beq_iff_eq] at hc
    refine ⟨hc.1, ?_⟩
    intro c hcut
    have hb := hc.2
    rw [hcut] at hb
    simpa using hb

theorem getPriceHistoryWithRange_ok (rows : List PriceSnapshot) (now : Int)
    (marketId : Nat) (range : Option String) (limit : Nat)
    (l : List PriceSnapshot)
    (hl : getPriceHistoryWithRange rows now marketId range limit = Except.ok l) :
    ∃ cutoff, l = priceHistoryQuery rows marketId cutoff limit := by
  unfold getPriceHistoryWithRange at hl
  cases range with
  | none =>
    dsimp only at hl
    injection hl with h
    exact ⟨none, h.symm⟩
  | some r =>
    dsimp only at hl
    by_cases hr : r ≠ "" ∧ r ≠ "all"
    · rw [if_pos hr] at hl
      cases hh : RANGE_HOURS r with
      | some hours =>
        simp only [hh] at hl
        injection hl with h
        exact ⟨some (now - hours * 3600000), h.symm⟩
      | none =>
        simp only [hh] at hl
        by_cases hp : r ∈ objectPrototypeKeys
        · rw [if_pos hp] at hl
          cases hl
        · rw [if_neg hp] at hl
          injection hl with h
          exact ⟨none, h.symm⟩
    · rw [if_neg hr] at hl
      injection hl with h
      exact ⟨none, h.symm⟩

theorem priceHistory_range_fallback (rows : List PriceSnapshot) (now : Int)
    (marketId : Nat) (rg : String) (limit : Nat) (h : RANGE_HOURS rg = none)
    (hp : rg ∉ objectPrototypeKeys) :
    getPriceHistoryWithRange rows now marketId (some rg) limit
      = getPriceHistoryWithRange rows now marketId none limit := by
  unfold getPriceHistoryWithRange
  dsimp only
  by_cases hr : rg ≠ "" ∧ rg ≠ "all"
  · rw [if_pos hr]
    simp only [h]
    rw [if_neg hp]
  · rw [if_neg hr]

theorem priceHistory_range_throws (rows : List PriceSnapshot) (now : Int)
    (marketId : Nat) (rg : String) (limit : Nat)
    (hp : rg ∈ objectPrototypeKeys) :
    getPriceHistoryWithRange rows now marketId (some rg) limit
      = Except.error "RangeError: Invalid time value" := by
  have hfacts := objectPrototypeKeys_unlisted rg hp
  unfold getPriceHistoryWithRange
  dsimp only
  rw [if_pos hfacts.1]
  simp only [hfacts.2]
  rw [if_pos hp]

/-- C1: `getMarkets` builds a conjunctive filter — each supplied filter
(status, with default "active" when absent; platform; category;
case-insensitive substring search on the title) is AND-ed with the others,
and an absent or "all" value imposes no constraint — and applies exactly one
sort order, selected by the sort key, with volume_desc as the fallback for
any unrecognized sort key. -/
theorem c1_listMarkets_filter_and_sort (q : GetMarketsParams) (rows : List Market) :
    (∀ m, marketCond q m =
      (specStatusOk q m && specPlatformOk q m && specCategoryOk q m && specSearchOk q m))
    ∧ (getMarkets q rows).data.Pairwise
        (fun a b => marketOrderLe (q.sort.getD "volume_desc") a b = true)
    ∧ (∀ k, q.sort = some k → k ∉ recognizedSortKeys →
        getMarkets q rows = getMarkets { q with sort := some "volume_desc" } rows) := by
  refine ⟨?_, ?_, ?_⟩
  · intro m
    simp only [marketCond, statusCondB_eq_spec, platformCondB_eq_spec,
      categoryCondB_eq_spec, searchCondB_eq_spec]
  · exact pairwise_window
      (pairwise_sortByLe _ (marketOrderLe_trans _) (marketOrderLe_total _) _) _ _
  · intro k hq hk
    exact getMarkets_sort_fallback q rows k hq hk

/-- C2: for every filter combination and page number at least 1, `getMarkets`
computes `offset = (page-1) * pageSize`, returns at most `pageSize` rows,
returns a total equal to the count of all rows matching the same filter
regardless of page, returns `totalPages = ceil(total / pageSize)`, and for
any page beyond `totalPages` returns zero rows rather than an error. -/
theorem c2_listMarkets_pagination (q : GetMarketsParams) (rows : List Market)
    (page : Nat) (hp : 1 ≤ page) :
    (getMarkets { q with page := some page } rows).data.length ≤ PAGE_SIZE
    ∧ (getMarkets { q with page := some page } rows).data
        = ((sortByLe (marketOrderLe (q.sort.getD "volume_desc"))
            (rows.filter (marketCond q))).drop ((page - 1) * PAGE_SIZE)).take PAGE_SIZE
    ∧ (getMarkets { q with page := some page } rows).total
        = (rows.filter (marketCond q)).length
    ∧ (getMarkets { q with page := some page } rows).totalPages
        = ((rows.filter (marketCond q)).length + PAGE_SIZE - 1) / PAGE_SIZE
    ∧ ((getMarkets { q with page := some page } rows).totalPages < page →
        (getMarkets { q with page := some page } rows).data = []) := by
  refine ⟨List.length_take_le _ _, rfl, rfl, rfl, ?_⟩
  intro h
  have h5 : ((rows.filter (marketCond q)).length + PAGE_SIZE - 1) / PAGE_SIZE < page := h
  have hoff : (rows.filter (marketCond q)).length ≤ (page - 1) * PAGE_SIZE := by
    simp only [PAGE_SIZE] at h5 ⊢
    omega
  show ((sortByLe (marketOrderLe (q.sort.getD "volume_desc"))
      (rows.filter (marketCond q))).drop ((page - 1) * PAGE_SIZE)).take PAGE_SIZE = []
  rw [List.drop_eq_nil_of_le (by rw [length_sortByLe]; exact hoff)]
  rfl

/-- C3 counterexample: `getMarkets` with the out-of-vocabulary category
"Bogus" does not behave as if no category filter were supplied — it filters
out a market the unfiltered call returns. -/
theorem c3_counterexample :
    (getMarkets { category := some "Bogus" } [mPol]).data = []
    ∧ (getMarkets {} [mPol]).data = [mPol] := by decide

theorem getMarkets_filter_nil (q : GetMarketsParams) (rows : List Market)
    (hf : rows.filter (marketCond q) = []) :
    (getMarkets q rows).data = [] ∧ (getMarkets q rows).total = 0 := by
  constructor
  · show ((sortByLe (marketOrderLe (q.sort.getD "volume_desc"))
        (rows.filter (marketCond q))).drop ((q.page.getD 1 - 1) * PAGE_SIZE)).take
        PAGE_SIZE = []
    rw [hf]
    simp [sortByLe]
  · show (rows.filter (marketCond q)).length = 0
    rw [hf]
    rfl

/-- C3 (amended): out-of-vocabulary sort keys are normalized to volume_desc;
an out-of-vocabulary time range imposes no lower bound unless it names a
property inherited from `Object.prototype` (e.g. "constructor"), in which
case the price-history query throws a RangeError instead of normalizing; and
`getMarkets` applies an out-of-vocabulary category or status as an ordinary
equality filter — matching no rows of a table whose values lie in the closed
vocabulary, though never rejected as an error — rather than behaving as if
no such filter were supplied. -/
theorem c3_normalization_amended (q : GetMarketsParams) (rows : List Market)
    (k : String) (snaps : List PriceSnapshot) (now : Int) (marketId limit : Nat)
    (rg : String) (c s : String) :
    (q.sort = some k → k ∉ recognizedSortKeys →
      getMarkets q rows = getMarkets { q with sort := some "volume_desc" } rows)
    ∧ (RANGE_HOURS rg = none → rg ∉ objectPrototypeKeys →
        getPriceHistoryWithRange snaps now marketId (some rg) limit
          = getPriceHistoryWithRange snaps now marketId none limit)
    ∧ (rg ∈ objectPrototypeKeys →
        getPriceHistoryWithRange snaps now marketId (some rg) limit
          = Except.error "RangeError: Invalid time value")
    ∧ (q.category = some c → c ≠ "" → c ≠ "all" → c ≠ "All" →
        (∀ m ∈ rows, m.category ≠ some c) →
        (getMarkets q rows).data = [] ∧ (getMarkets q rows).total = 0)
    ∧ (q.status = some s → s ≠ "" → s ≠ "all" →
        (∀ m ∈ rows, m.status ≠ some s) →
        (getMarkets q rows).data = [] ∧ (getMarkets q rows).total = 0) := by
  refine ⟨fun hq hk => getMarkets_sort_fallback q rows k hq hk,
    fun hr hp => priceHistory_range_fallback snaps now marketId rg limit hr hp,
    fun hp => priceHistory_range_throws snaps now marketId rg limit hp,
    ?_, ?_⟩
  · intro hq hc1 hc2 hc3 hall
    apply getMarkets_filter_nil
    rw [List.filter_eq_nil_iff]
    intro m hm
    have hcat : categoryCondB q m = false := by
      simp only [categoryCondB, hq]
      rw [if_pos ⟨hc1, hc3, hc2⟩]
      simpa using hall m hm
    simp [marketCond, hcat]
  · intro hq hs1 hs2 hall
    apply getMarkets_filter_nil
    rw [List.filter_eq_nil_iff]
    intro m hm
    have hstc : statusCondB q m = false := by
      simp only [statusCondB, hq, Option.getD_some]
      rw [if_pos ⟨hs1, hs2⟩]
      simpa using hall m hm
    simp [marketCond, hstc]

/-- C4 counterexample: market 2 appears in a pair whose absolute price gap is
0.05 (at least 0.03), yet `getHighArbMarkets` does not return it, because the
market's status is "resolved" — so pair membership is not the only condition
on the returned markets. -/
theorem c4_counterexample :
    specHighArbEligible [pairRes] mRes = true
    ∧ mRes ∉ getHighArbMarkets [pairRes] [mRes] 10 := by decide

/-- C4 (amended): for every limit, the `high_arb` smart filter returns, capped
at `limit` and ordered by volume descending with nulls last, exactly the
deduplicated set of ACTIVE markets appearing in some MarketPair whose
absolute price gap (with a null gap counting as 0) is at least 0.03. -/
theorem c4_highArb_amended (pairs : List MarketPair) (rows : List Market) (limit : Nat) :
    (getHighArbMarkets pairs rows limit).length ≤ limit
    ∧ (∀ m ∈ getHighArbMarkets pairs rows limit,
        m.status = some "active" ∧ specHighArbEligible pairs m = true)
    ∧ (getHighArbMarkets pairs rows limit).Pairwise
        (fun a b => optQLe true b.volume a.volume = true)
    ∧ ((rows.filter fun m =>
          (pairs.any fun p => highArbPairCond p && pairRefersTo p m) &&
            m.status == some "active").length ≤ limit →
        ∀ m ∈ rows, m.status = some "active" → specHighArbEligible pairs m = true →
          m ∈ getHighArbMarkets pairs rows limit) := by
  refine ⟨List.length_take_le _ _, ?_, ?_, ?_⟩
  · intro m hm
    have hf := List.mem_filter.mp
      ((mem_sortByLe _ m _).mp (List.mem_of_mem_take hm))
    have hc := hf.2
    simp only [Bool.and_eq_true, beq_iff_eq] at hc
    exact ⟨hc.2, by rw [specHighArbEligible_eq]; exact hc.1⟩
  · exact (pairwise_sortByLe _
      (fun a b c h1 h2 => optQLe_trans true c.volume b.volume a.volume h2 h1)
      (fun a b => optQLe_total true b.volume a.volume) _).sublist
      (List.take_sublist _ _)
  · intro hlen m hm hst he
    unfold getHighArbMarkets
    rw [List.take_of_length_le (by rw [length_sortByLe]; exact hlen)]
    refine (mem_sortByLe _ m _).mpr (List.mem_filter.mpr ⟨hm, ?_⟩)
    rw [specHighArbEligible_eq] at he
    simp [he, hst]

/-- C5 counterexample: the range "constructor" is unrecognized, yet the
query does not return unbounded history — the inherited `Object.prototype`
member passes the truthiness check and the cutoff computation throws a
RangeError, while the omitted range returns the snapshot. -/
theorem c5_counterexample :
    getPriceHistoryWithRange [snapNew] 1700000000000 5 (some "constructor") 500
      = Except.error "RangeError: Invalid time value"
    ∧ getPriceHistoryWithRange [snapNew] 1700000000000 5 none 500
      = Except.ok [snapNew] := ⟨rfl, rfl⟩

/-- C5 (amended): `getPriceHistoryWithRange` returns snapshots of the
requested market ordered newest first (timestamps non-increasing), at most
`limit` rows; the ranges "24h", "7d" and "30d" impose the lower bound
`timestamp >= now - N hours` with N = 24, 168, 720 respectively; "all" or an
unrecognized range imposes no lower bound — except that a range naming a
property inherited from `Object.prototype` (e.g. "constructor") makes the
query throw a RangeError instead of returning unbounded history. -/
theorem c5_priceHistory_range_amended (rows : List PriceSnapshot) (now : Int)
    (marketId : Nat) (range : Option String) (limit : Nat) :
    (∀ l, getPriceHistoryWithRange rows now marketId range limit = Except.ok l →
      l.length ≤ limit
      ∧ l.Pairwise (fun a b => b.timestamp ≤ a.timestamp)
      ∧ (∀ s ∈ l, s.marketId = marketId))
    ∧ (RANGE_HOURS "24h" = some 24 ∧ RANGE_HOURS "7d" = some 168
        ∧ RANGE_HOURS "30d" = some 720)
    ∧ (∀ rg hours, range = some rg → RANGE_HOURS rg = some hours →
        ∀ l, getPriceHistoryWithRange rows now marketId range limit = Except.ok l →
          ∀ s ∈ l, now - hours * 3600000 ≤ s.timestamp)
    ∧ (∀ rg, range = some rg → RANGE_HOURS rg = none →
        rg ∉ objectPrototypeKeys →
        getPriceHistoryWithRange rows now marketId range limit
          = getPriceHistoryWithRange rows now marketId none limit)
    ∧ (∀ rg, range = some rg → rg ∈ objectPrototypeKeys →
        getPriceHistoryWithRange rows now marketId range limit
          = Except.error "RangeError: Invalid time value") := by
  refine ⟨?_, ⟨rfl, rfl, rfl⟩, ?_, ?_, ?_⟩
  · intro l hl
    obtain ⟨cutoff, rfl⟩ := getPriceHistoryWithRange_ok rows now marketId
      range limit l hl
    have hs := priceHistoryQuery_spec rows marketId cutoff limit
    exact ⟨hs.1, hs.2.1, fun s hsm => (hs.2.2 s hsm).1⟩
  · intro rg hours hrg hh l hl s hs
    subst hrg
    unfold getPriceHistoryWithRange at hl
    dsimp only at hl
    rw [if_pos (RANGE_HOURS_keys rg hours hh)] at hl
    simp only [hh] at hl
    injection hl with h
    subst h
    exact (((priceHistoryQuery_spec rows marketId
      (some (now - hours * 3600000)) limit).2.2 s hs).2) _ rfl
  · intro rg hrg hh hp
    subst hrg
    exact priceHistory_range_fallback rows now marketId rg limit hh hp
  · intro rg hrg hp
    subst hrg
    exact priceHistory_range_throws rows now marketId rg limit hp

/-- C9: `getLatestTraderPositions` first resolves the single most recent
snapshot timestamp across the trader's position rows (a maximum of the SQL
text order, under which well-formed ISO timestamps sort chronologically) and
then returns exactly the trader's position rows carrying that resolved
timestamp — never a mix of rows from different snapshot instants. -/
theorem c9_latestPositions (ps : List TraderPosition) (tid : Nat) :
    (∀ p ∈ getLatestTraderPositions ps tid, p.traderId = some tid)
    ∧ (∀ p ∈ getLatestTraderPositions ps tid, ∀ r ∈ getLatestTraderPositions ps tid,
        p.snapshotTime = r.snapshotTime)
    ∧ (∀ t, maxTime ((ps.filter fun p => p.traderId == some tid).map
          fun p => p.snapshotTime) = some t →
        (t ∈ (ps.filter fun p => p.traderId == some tid).map (fun p => p.snapshotTime)
          ∧ ∀ x ∈ (ps.filter fun p => p.traderId == some tid).map
              (fun p => p.snapshotTime), timeLe x t = true)
        ∧ (t ≠ "" → ∀ p ∈ ps, p.traderId = some tid →
            (p ∈ getLatestTraderPositions ps tid ↔ p.snapshotTime = t))) := by
  refine ⟨?_, ?_, ?_⟩
  · intro p hp
    unfold getLatestTraderPositions at hp
    cases hmax : maxTime ((ps.filter fun p => p.traderId == some tid).map
        fun p => p.snapshotTime) with
    | none => simp [hmax] at hp
    | some t =>
      simp only [hmax] at hp
      by_cases ht : t = ""
      · rw [if_pos ht] at hp; cases hp
      · rw [if_neg ht] at hp
        have hc := (List.mem_filter.mp ((mem_sortByLe _ p _).mp hp)).2
        simp only [Bool.and_eq_true, beq_iff_eq] at hc
        exact hc.1
  · intro p hp r hr
    unfold getLatestTraderPositions at hp hr
    cases hmax : maxTime ((ps.filter fun p => p.traderId == some tid).map
        fun p => p.snapshotTime) with
    | none => simp [hmax] at hp
    | some t =>
      simp only [hmax] at hp hr
      by_cases ht : t = ""
      · rw [if_pos ht] at hp; cases hp
      · rw [if_neg ht] at hp hr
        have hcp := (List.mem_filter.mp ((mem_sortByLe _ p _).mp hp)).2
        have hcr := (List.mem_filter.mp ((mem_sortByLe _ r _).mp hr)).2
        simp only [Bool.and_eq_true, beq_iff_eq] at hcp hcr
        rw [hcp.2, hcr.2]
  · intro t hmax
    refine ⟨⟨maxTime_mem _ t hmax, maxTime_ge _ t hmax⟩, ?_⟩
    intro ht p hp htr
    unfold getLatestTraderPositions
    simp only [hmax]
    rw [if_neg ht]
    constructor
    · intro hmem
      have hc := (List.mem_filter.mp ((mem_sortByLe _ p _).mp hmem)).2
      simp only [Bool.and_eq_true, beq_iff_eq] at hc
      exact hc.2
    · intro hpt
      exact (mem_sortByLe _ p _).mpr
        (List.mem_filter.mpr ⟨hp, by simp [htr, hpt]⟩)

/-- Witness for C1 at a concrete parameter object with the unrecognized sort
key "bogus". -/
theorem c1_witness :
    marketCond { sort := some "bogus" } mPol
      = (specStatusOk { sort := some "bogus" } mPol
          && specPlatformOk { sort := some "bogus" } mPol
          && specCategoryOk { sort := some "bogus" } mPol
          && specSearchOk { sort := some "bogus" } mPol)
    ∧ getMarkets { sort := some "bogus" } [mPol]
        = getMarkets { sort := some "volume_desc" } [mPol] := by
  have h := c1_listMarkets_filter_and_sort { sort := some "bogus" } [mPol]
  exact ⟨h.1 mPol, h.2.2 "bogus" rfl (by decide)⟩

/-- Witness for C2 at page 2 of a one-market table. -/
theorem c2_witness :
    (getMarkets { page := some 2 } [mPol]).data.length ≤ PAGE_SIZE
    ∧ (getMarkets { page := some 2 } [mPol]).data = [] := by
  have h := c2_listMarkets_pagination {} [mPol] 2 (by decide)
  exact ⟨h.1, h.2.2.2.2 (by decide)⟩

/-- Witness for the amended C3 at concrete out-of-vocabulary inputs:
unrecognized sort key, unrecognized range, prototype-chain range, and
out-of-vocabulary category and status values. -/
theorem c3_witness :
    getMarkets { sort := some "strange" } [mPol]
      = getMarkets { sort := some "volume_desc" } [mPol]
    ∧ getPriceHistoryWithRange [snapNew] 0 5 (some "1y") 10
        = getPriceHistoryWithRange [snapNew] 0 5 none 10
    ∧ getPriceHistoryWithRange [snapNew] 0 5 (some "toString") 10
        = Except.error "RangeError: Invalid time value"
    ∧ ((getMarkets { category := some "Bogus" } [mPol]).data = []
        ∧ (getMarkets { category := some "Bogus" } [mPol]).total = 0)
    ∧ ((getMarkets { status := some "archived" } [mPol]).data = []
        ∧ (getMarkets { status := some "archived" } [mPol]).total = 0) := by
  refine ⟨?_, ?_, ?_, ?_, ?_⟩
  · exact (c3_normalization_amended { sort := some "strange" } [mPol] "strange"
      [] 0 1 10 "x" "y" "z").1 rfl (by decide)
  · exact (c3_normalization_amended {} [] "k" [snapNew] 0 5 10 "1y" "y" "z").2.1
      (by decide) (by decide)
  · exact (c3_normalization_amended {} [] "k" [snapNew] 0 5 10 "toString"
      "y" "z").2.2.1 (by decide)
  · exact (c3_normalization_amended { category := some "Bogus" } [mPol] "k"
      [] 0 1 10 "x" "Bogus" "z").2.2.2.1 rfl (by decide) (by decide) (by decide)
      (by decide)
  · exact (c3_normalization_amended { status := some "archived" } [mPol] "k"
      [] 0 1 10 "x" "y" "archived").2.2.2.2 rfl (by decide) (by decide)
      (by decide)

/-- Witness for the amended C4: an active market in a 0.04-gap pair is
returned. -/
theorem c4_witness :
    (mPol.status = some "active" ∧ specHighArbEligible [pairPol] mPol = true)
    ∧ mPol ∈ getHighArbMarkets [pairPol] [mPol] 10 := by
  have h := c4_highArb_amended [pairPol] [mPol] 10
  exact ⟨h.2.1 mPol (by decide),
    h.2.2.2 (by decide) mPol (by decide) (by decide) (by decide)⟩

/-- Witness for the amended C5 at a concrete snapshot list: the 24h bound
holds for the returned snapshot, an unrecognized range equals the unbounded
query, and a prototype-chain range throws. -/
theorem c5_witness :
    ((1700000000000 : Int) - 24 * 3600000 ≤ snapNew.timestamp)
    ∧ getPriceHistoryWithRange [snapNew] 1700000000000 5 (some "1y") 500
        = getPriceHistoryWithRange [snapNew] 1700000000000 5 none 500
    ∧ getPriceHistoryWithRange [snapNew] 1700000000000 5 (some "valueOf") 500
        = Except.error "RangeError: Invalid time value" := by
  have h := c5_priceHistory_range_amended [snapNew] 1700000000000 5 (some "24h") 500
  have h2 := c5_priceHistory_range_amended [snapNew] 1700000000000 5 (some "1y") 500
  have h3 := c5_priceHistory_range_amended [snapNew] 1700000000000 5
    (some "valueOf") 500
  refine ⟨?_, ?_, ?_⟩
  · exact h.2.2.1 "24h" 24 rfl rfl _ rfl snapNew (by decide)
  · exact h2.2.2.2.1 "1y" rfl (by decide) (by decide)
  · exact h3.2.2.2.2 "valueOf" rfl (by decide)

/-- Witness for C6: inserting an already-watched trader is a successful
no-op, and deleting an unwatched trader leaves the table unchanged. -/
theorem c6_witness :
    addToWatchlist [wlEntry] 7 "2025-01-02T00:00:00.000Z"
      = Except.ok ([wlEntry], false)
    ∧ removeFromWatchlist [wlEntry] 8 = [wlEntry] := by
  have h := c6_watchlist_noop [wlEntry] 7 "2025-01-02T00:00:00.000Z"
  have h2 := c6_watchlist_noop [wlEntry] 8 "x"
  exact ⟨h.1 (by decide), h2.2 (by decide)⟩

/-- Witness for C7: acknowledging an absent id is a no-op, and the updated
alert carries the acknowledged flag. -/
theorem c7_witness :
    acknowledgeAlert [alUnacked] 2 = [alUnacked]
    ∧ ({ alUnacked with acknowledged := 1 } : Alert).acknowledged = 1 := by
  have h := c7_acknowledge_idempotent [alUnacked] 2
  have h1 := c7_acknowledge_idempotent [alUnacked] 1
  exact ⟨h.2.2.1 (by decide),
    h1.1 { alUnacked with acknowledged := 1 } (by decide) (by decide)⟩

/-- Witness for C8: the 0.50-priced active market is returned and satisfies
the interval bounds. -/
theorem c8_witness :
    mPol ∈ getNear5050Markets [mPol] 50
    ∧ (mPol.status = some "active"
        ∧ ∃ p, mPol.yesPrice = some p ∧ mkRat 45 100 ≤ p ∧ p ≤ mkRat 55 100) := by
  have h := c8_near5050 [mPol] 50
  refine ⟨h.2.2.2 (by decide) mPol (by decide) (by decide), h.2.1 mPol ?_⟩
  exact h.2.2.2 (by decide) mPol (by decide) (by decide)

/-- Witness for C9: with two snapshots of trader 4, exactly the later one is
returned. -/
theorem c9_witness :
    posB ∈ getLatestTraderPositions [posA, posB] 4
    ∧ posB.traderId = some 4 := by
  have h := c9_latestPositions [posA, posB] 4
  have hmem : posB ∈ getLatestTraderPositions [posA, posB] 4 :=
    ((h.2.2 posB.snapshotTime (by decide)).2 (by decide) posB (by decide)
      (by decide)).mpr rfl
  exact ⟨hmem, h.1 posB hmem⟩

/-- Witness for C10: the 0.05-gap pair is kept under `minGap = 0` and under
`minGap = 0.03` its gap is non-null and at least 0.03. -/
theorem c10_witness :
    pairRes ∈ getAllPairs [pairRes] (some 0)
    ∧ ∃ x, pairRes.priceGap = some x ∧ mkRat 3 100 ≤ |x| := by
  have h := c10_allPairs_minGap [pairRes] (mkRat 3 100) pairRes
  exact ⟨h.2.1 (by decide), h.2.2 (by decide) (by decide)⟩

end PredictionMarkets
